import Mathlib

/-!
Shallow embedding of `src/sonosplay.py` (SonosPlay).

The embedding translates, from the source:
* `urllib.parse.quote` (default safe set) and `os.path.basename`,
  used by `FileServer.serve` to build the returned URL;
* `_get_local_ip`, with the socket-probe outcomes supplied by a
  `ProbeEnv` environment;
* `_SingleFileHandler.translate_path` and the GET behaviour it induces in
  `http.server.SimpleHTTPRequestHandler` (open the translated path: 200
  with the bytes on success, 404 when the open fails);
* `FileServer.serve` / `FileServer.stop`, with the process state of
  listening sockets made explicit: a `Session` records one bound listener
  (its accept loop running or not, its socket closed or not).
  `shutdown()` is modelled as synchronously stopping the accept loop of
  the current session; nothing in the source ever calls `server_close()`,
  so no operation sets `socketClosed`;
* the discovery/group-resolution loop of
  `SonosPlayApp._refresh_speakers.discover` (Python's stable `sorted` /
  `list.sort` are modelled by the stable `List.insertionSort`);
* `SonosPlayApp._on_speaker_select.fetch_vol`,
  `SonosPlayApp._on_volume_change.set_vol` and `SonosPlayApp._stop`,
  with per-device I/O outcomes supplied as explicit data.
-/

namespace SonosPlay

/-! ### urllib.parse.quote and os.path.basename -/

/-- UTF-8 encoding of one character, as byte values (Python `quote`
percent-encodes the UTF-8 bytes of the input). -/
def utf8Bytes (c : Char) : List Nat :=
  let n := c.toNat
  if n < 0x80 then [n]
  else if n < 0x800 then
    [0xC0 ||| (n >>> 6), 0x80 ||| (n &&& 0x3F)]
  else if n < 0x10000 then
    [0xE0 ||| (n >>> 12), 0x80 ||| ((n >>> 6) &&& 0x3F), 0x80 ||| (n &&& 0x3F)]
  else
    [0xF0 ||| (n >>> 18), 0x80 ||| ((n >>> 12) &&& 0x3F),
     0x80 ||| ((n >>> 6) &&& 0x3F), 0x80 ||| (n &&& 0x3F)]

/-- Bytes `urllib.parse.quote` leaves unencoded with its default
`safe="/"`: ASCII letters, digits, `_`, `.`, `-`, `~` and `/`. -/
def isSafeByte (b : Nat) : Bool :=
  (65 ≤ b && b ≤ 90) || (97 ≤ b && b ≤ 122) || (48 ≤ b && b ≤ 57) ||
    b == 95 || b == 46 || b == 45 || b == 126 || b == 47

/-- Uppercase hex digit, as produced by Python's `quote`. -/
def hexChar (n : Nat) : Char :=
  if n < 10 then Char.ofNat (48 + n) else Char.ofNat (55 + n)

/-- One byte of `quote` output: the byte itself when safe, `%XX` otherwise. -/
def quoteBytePart (b : Nat) : String :=
  if isSafeByte b then String.singleton (Char.ofNat b)
  else String.mk ['%', hexChar (b / 16), hexChar (b % 16)]

/-- `urllib.parse.quote(s)` with the default safe set. -/
def quote (s : String) : String :=
  String.join (((s.data.map utf8Bytes).flatten).map quoteBytePart)

/-- `os.path.basename(p)` on POSIX: everything after the last `/`. -/
def basename (p : String) : String :=
  String.mk ((p.data.reverse.takeWhile (fun c => c ≠ '/')).reverse)

/-! ### _get_local_ip -/

/-- An `OSError` raised by a socket call; the numeric code is opaque data. -/
structure OSError where
  code : Nat
deriving DecidableEq

/-- Outcomes of the probe socket's two calls in `_get_local_ip`:
`s.connect(("10.255.255.255", 1))` and `s.getsockname()[0]`.  Socket
operations fail by raising `OSError`. -/
structure ProbeEnv where
  connectResult : Except OSError Unit
  getsocknameResult : Except OSError String

/-- `_get_local_ip()`.  First component: the value the call returns, or
the exception it propagates (`Except.error`).  Second component: whether
the probe socket was closed (the `finally: s.close()` clause runs on
every path out of the `try`). -/
def get_local_ip (env : ProbeEnv) : Except OSError String × Bool :=
  -- try: s.connect(...); return s.getsockname()[0]
  let body : Except OSError String :=
    match env.connectResult with
    | .error e => .error e
    | .ok _ => env.getsocknameResult
  -- except OSError: return "127.0.0.1"
  let handled : Except OSError String :=
    match body with
    | .error _ => .ok "127.0.0.1"
    | .ok ip => .ok ip
  -- finally: s.close()
  (handled, true)

/-- The address `serve` interpolates into the URL (`_get_local_ip` never
propagates an error, so the `.error` arm is unreachable). -/
def ipOf (env : ProbeEnv) : String :=
  match (get_local_ip env).1 with
  | .ok ip => ip
  | .error _ => "127.0.0.1"

/-! ### _SingleFileHandler and GET handling -/

/-- `_SingleFileHandler.translate_path`: returns the class attribute
`file_path`, ignoring the request path entirely. -/
def translate_path (file_path : String) (path : String) : String :=
  file_path

/-- An HTTP response, reduced to status code and body bytes. -/
structure HttpResponse where
  status : Nat
  body : List Nat
deriving DecidableEq

/-- A file system: maps a path to the file's bytes, or `none` when the
open fails. -/
def FileSys : Type := String → Option (List Nat)

/-- `SimpleHTTPRequestHandler.do_GET` through `_SingleFileHandler`:
`send_head` opens `translate_path(self.path)` and answers 200 with the
bytes, or 404 when the open raises.  `file_path` is the handler class
attribute. -/
def do_GET (fs : FileSys) (file_path : String) (path : String) : HttpResponse :=
  match fs (translate_path file_path path) with
  | some bytes => ⟨200, bytes⟩
  | none => ⟨404, []⟩

/-- Modelled from the spec (for comparison with `do_GET`): the HTTP
surface the spec describes, 200 with the file bytes on exactly the
URL-encoded basename path and 404 on any other path. -/
def do_GET_specified (fs : FileSys) (file_path : String) (path : String) :
    HttpResponse :=
  if path = "/" ++ quote (basename file_path) then
    match fs file_path with
    | some bytes => ⟨200, bytes⟩
    | none => ⟨404, []⟩
  else ⟨404, []⟩

/-! ### FileServer -/

/-- One listener bound by `http.server.HTTPServer(("", 0), ...)`:
`loopRunning` is the `serve_forever` accept loop, `socketClosed` records
whether `server_close()` has closed the listening socket. -/
structure Session where
  port : Nat
  loopRunning : Bool
  socketClosed : Bool
deriving DecidableEq

/-- Process state: every listener ever bound (in binding order),
the `FileServer._httpd` reference as an index into that list, and the
`_SingleFileHandler.file_path` class attribute. -/
structure World where
  sessions : List Session
  httpd : Option Nat
  handlerFilePath : String
deriving DecidableEq

/-- State at process start: no listener bound, `_httpd = None`,
`file_path = ""`. -/
def initWorld : World := ⟨[], none, ""⟩

/-- Stop the accept loop of the session at index `i`
(`self._httpd.shutdown()` is synchronous: it waits for the loop to
exit).  The listening socket is not touched. -/
def stopLoopAt : List Session → Nat → List Session
  | [], _ => []
  | s :: rest, 0 => { s with loopRunning := false } :: rest
  | s :: rest, n + 1 => s :: stopLoopAt rest n

namespace FileServer

/-- `FileServer.stop`: if `self._httpd` is set, call `shutdown()` and
clear the reference; otherwise do nothing. -/
def stop (w : World) : World :=
  match w.httpd with
  | none => w
  | some i =>
    { sessions := stopLoopAt w.sessions i
      httpd := none
      handlerFilePath := w.handlerFilePath }

/-- `FileServer.serve(file_path)`: `stop()`, set the handler class
attribute, bind a fresh listener (port 0: the OS assigns a fresh port,
modelled by the next free index), start `serve_forever` on a thread, and
return the URL.  Result: new state and returned URL. -/
def serve (env : ProbeEnv) (w : World) (file_path : String) : World × String :=
  let w1 := stop w
  let w2 := { w1 with handlerFilePath := file_path }
  let port := w2.sessions.length
  let w3 : World :=
    { sessions := w2.sessions ++ [⟨port, true, false⟩]
      httpd := some w2.sessions.length
      handlerFilePath := w2.handlerFilePath }
  (w3, "http://" ++ ipOf env ++ ":" ++ toString port ++ "/" ++
    quote (basename file_path))

end FileServer

/-- Handling of a GET request that arrives on the listener of session
`sessionIdx`: every `_SingleFileHandler` instance reads the class
attribute `file_path`, so the session it arrived through plays no part. -/
def handleRequestOn (fs : FileSys) (w : World) (sessionIdx : Nat)
    (path : String) : HttpResponse :=
  do_GET fs w.handlerFilePath path

/-- Sessions whose accept loop is live point at the current `_httpd`
reference: this is the at-most-one-live-listener invariant. -/
def LiveOk (w : World) : Prop :=
  ∀ i, i < w.sessions.length →
    (w.sessions.getD i ⟨0, false, false⟩).loopRunning = true →
    w.httpd = some i

instance (w : World) : Decidable (LiveOk w) := by
  unfold LiveOk
  infer_instance

/-- Number of sessions whose accept loop is running. -/
def liveCount (w : World) : Nat :=
  (w.sessions.filter (fun s => s.loopRunning)).length

/-! ### Discovery and group resolution (`_refresh_speakers.discover`) -/

/-- One player as the device-control library exposes it: a stable `uid`
and a `player_name`. -/
structure Device where
  uid : String
  player_name : String
deriving DecidableEq

/-- What `sp.group` exposes: the group's coordinator device and its
member devices. -/
structure GroupInfo where
  coordinator : Device
  members : List Device
deriving DecidableEq

/-- One discovered speaker: the device itself and its group reference. -/
structure Speaker where
  dev : Device
  group : GroupInfo
deriving DecidableEq

/-- One entry of the `groups` list built by `discover`:
`(label, coord, members)`. -/
structure GroupEntry where
  label : String
  coordinator : Device
  members : List Device
deriving DecidableEq

/-- Code-point lexicographic `≤` on character lists: Python compares
strings exactly this way. -/
def charListLeB : List Char → List Char → Bool
  | [], _ => true
  | _ :: _, [] => false
  | a :: as, b :: bs =>
    if a.toNat < b.toNat then true
    else if b.toNat < a.toNat then false
    else charListLeB as bs

/-- Python's `<=` on strings. -/
def strLe (a b : String) : Prop :=
  charListLeB a.data b.data = true

instance : DecidableRel strLe := fun a b =>
  inferInstanceAs (Decidable (charListLeB a.data b.data = true))

theorem charListLeB_total : ∀ a b : List Char,
    charListLeB a b = true ∨ charListLeB b a = true := by
  intro a
  induction a with
  | nil => intro b; exact Or.inl rfl
  | cons x xs ih =>
    intro b
    cases b with
    | nil => exact Or.inr rfl
    | cons y ys =>
      by_cases hxy : x.toNat < y.toNat
      · exact Or.inl (by simp [charListLeB, hxy])
      · by_cases hyx : y.toNat < x.toNat
        · exact Or.inr (by simp [charListLeB, hyx, Nat.lt_asymm hyx])
        · rcases ih ys with h | h
          · exact Or.inl (by simp [charListLeB, hxy, hyx, h])
          · exact Or.inr (by simp [charListLeB, hxy, hyx, h])

theorem charListLeB_trans : ∀ a b c : List Char,
    charListLeB a b = true → charListLeB b c = true → charListLeB a c = true := by
  intro a
  induction a with
  | nil => intro b c _ _; rfl
  | cons x xs ih =>
    intro b c hab hbc
    cases b with
    | nil => simp [charListLeB] at hab
    | cons y ys =>
      cases c with
      | nil => simp [charListLeB] at hbc
      | cons z zs =>
        simp only [charListLeB] at hab hbc ⊢
        rcases Nat.lt_trichotomy x.toNat y.toNat with hxy | hxy | hxy
        · rcases Nat.lt_trichotomy y.toNat z.toNat with hyz | hyz | hyz
          · simp [Nat.lt_trans hxy hyz]
          · have h2 : x.toNat < z.toNat := by omega
            simp [h2]
          · rw [if_neg (by omega), if_pos hyz] at hbc
            exact absurd hbc (by simp)
        · rw [if_neg (by omega), if_neg (by omega)] at hab
          rcases Nat.lt_trichotomy y.toNat z.toNat with hyz | hyz | hyz
          · have h2 : x.toNat < z.toNat := by omega
            simp [h2]
          · rw [if_neg (by omega), if_neg (by omega)] at hbc
            rw [if_neg (by omega), if_neg (by omega)]
            exact ih ys zs hab hbc
          · rw [if_neg (by omega), if_pos hyz] at hbc
            exact absurd hbc (by simp)
        · rw [if_neg (by omega), if_pos hxy] at hab
          exact absurd hab (by simp)

theorem charListLeB_antisymm : ∀ a b : List Char,
    charListLeB a b = true → charListLeB b a = true → a = b := by
  intro a
  induction a with
  | nil =>
    intro b _ hba
    cases b with
    | nil => rfl
    | cons y ys => simp [charListLeB] at hba
  | cons x xs ih =>
    intro b hab hba
    cases b with
    | nil => simp [charListLeB] at hab
    | cons y ys =>
      simp only [charListLeB] at hab hba
      rcases Nat.lt_trichotomy x.toNat y.toNat with hxy | hxy | hxy
      · rw [if_neg (by omega), if_pos hxy] at hba
        exact absurd hba (by simp)
      · have hchar : x = y := by
          apply Char.ext
          unfold Char.toNat at hxy
          exact UInt32.ext hxy
        rw [if_neg (by omega), if_neg (by omega)] at hab
        rw [if_neg (by omega), if_neg (by omega)] at hba
        rw [hchar, ih ys hab hba]
      · rw [if_neg (by omega), if_pos hxy] at hab
        exact absurd hab (by simp)

theorem strLe_total (a b : String) : strLe a b ∨ strLe b a :=
  charListLeB_total a.data b.data

theorem strLe_trans {a b c : String} (h1 : strLe a b) (h2 : strLe b c) : strLe a c :=
  charListLeB_trans a.data b.data c.data h1 h2

theorem strLe_antisymm {a b : String} (h1 : strLe a b) (h2 : strLe b a) : a = b := by
  cases a with
  | mk da =>
    cases b with
    | mk db => exact congrArg String.mk (charListLeB_antisymm da db h1 h2)

/-- Member comparison used by `sorted(group.members, key=lambda s:
s.player_name)`. -/
def memberLe (a b : Device) : Prop :=
  strLe a.player_name b.player_name

instance : DecidableRel memberLe := fun a b =>
  inferInstanceAs (Decidable (strLe a.player_name b.player_name))

instance : IsTotal Device memberLe := ⟨fun a b => strLe_total _ _⟩

instance : IsTrans Device memberLe := ⟨fun _ _ _ => strLe_trans⟩

/-- Python's `sorted` is a stable sort; `List.insertionSort` is stable
with respect to the same key relation, hence computes the same list. -/
def sortMembers (l : List Device) : List Device :=
  l.insertionSort memberLe

/-- `label = " + ".join(m.player_name for m in members)`. -/
def mkLabel (members : List Device) : String :=
  String.intercalate " + " (members.map (fun m => m.player_name))

/-- The group entry one loop iteration appends for speaker `sp`. -/
def mkEntry (sp : Speaker) : GroupEntry :=
  let members := sortMembers sp.group.members
  ⟨mkLabel members, sp.group.coordinator, members⟩

/-- The `for sp in found` loop with its `seen` set of coordinator uids:
skip a speaker whose coordinator uid was already recorded, otherwise
record it and append its group entry. -/
def collectGroups : List Speaker → List String → List GroupEntry
  | [], _ => []
  | sp :: rest, seen =>
    if sp.group.coordinator.uid ∈ seen then collectGroups rest seen
    else mkEntry sp :: collectGroups rest (sp.group.coordinator.uid :: seen)

/-- The coordinator uids of a list of group entries. -/
def coordUids (gs : List GroupEntry) : List String :=
  gs.map (fun g => g.coordinator.uid)

/-- Group comparison used by `groups.sort(key=lambda g: g[0])`. -/
def entryLe (a b : GroupEntry) : Prop :=
  strLe a.label b.label

instance : DecidableRel entryLe := fun a b =>
  inferInstanceAs (Decidable (strLe a.label b.label))

instance : IsTotal GroupEntry entryLe := ⟨fun a b => strLe_total _ _⟩

instance : IsTrans GroupEntry entryLe := ⟨fun _ _ _ => strLe_trans⟩

/-- The whole resolution pass of `discover` on one discovery snapshot
(`found` lists the discovered set in iteration order): collect one entry
per distinct coordinator uid, then sort the entries by label
(`list.sort` is stable, modelled by the stable `insertionSort`). -/
def resolveGroups (found : List Speaker) : List GroupEntry :=
  (collectGroups found []).insertionSort entryLe

/-- A discovery snapshot is consistent when speakers reporting the same
coordinator uid report the same group object. -/
def Consistent (found : List Speaker) : Prop :=
  ∀ a ∈ found, ∀ b ∈ found,
    a.group.coordinator.uid = b.group.coordinator.uid → a.group = b.group

instance (found : List Speaker) : Decidable (Consistent found) := by
  unfold Consistent
  infer_instance

/-! ### Volume read and write -/

/-- `fetch_vol`'s `sum(m.volume for m in members)`: reading `m.volume`
is a network call that may raise; the generator is consumed left to
right and the first raise aborts the sum. -/
def sumVolumes : List (Except OSError Nat) → Except OSError Nat
  | [] => .ok 0
  | v :: rest =>
    match v with
    | .error e => .error e
    | .ok n =>
      match sumVolumes rest with
      | .error e => .error e
      | .ok s => .ok (n + s)

/-- `_on_speaker_select.fetch_vol`: `avg = sum(...) // len(members)`
inside `try: ... except Exception: pass`.  `readings` is each member's
volume-read outcome; the result is the average handed to the display, or
`none` when the `except` swallowed a failure (including the
`ZeroDivisionError` of an empty member list). -/
def fetch_vol (readings : List (Except OSError Nat)) : Option Nat :=
  match sumVolumes readings with
  | .error _ => none
  | .ok s =>
    if readings.length = 0 then none
    else some (s / readings.length)

/-- `_on_volume_change.set_vol`: `for m in members: try: m.volume = vol
except Exception: pass`.  `fails` records, per member in order, whether
that member's volume assignment raises; the result records, per member,
the level actually delivered (`none` when the assignment raised and the
exception was swallowed). -/
def set_vol : List Bool → Nat → List (Option Nat)
  | [], _ => []
  | f :: rest, vol => (if f then none else some vol) :: set_vol rest vol

/-! ### SonosPlayApp._stop -/

/-- The application state `_stop` touches: the file-server world and
`self.active_speaker`. -/
structure AppState where
  world : World
  active_speaker : Option String
deriving DecidableEq

/-- What one `_stop` call did: the state it leaves behind, whether a
transport stop command was sent to the active coordinator, and the
user-visible outcome. -/
structure StopResult where
  state : AppState
  transportStopIssued : Bool
  status : String
deriving DecidableEq

/-- `SonosPlayApp._stop`.  `transportStopRaises` is whether
`self.active_speaker.stop()` raises.  In every branch — no active
speaker, stop succeeded, stop raised (the `except` shows an error
dialog) — the method falls through to `self.file_server.stop()` and
`self.active_speaker = None`. -/
def app_stop (st : AppState) (transportStopRaises : Bool) : StopResult :=
  match st.active_speaker with
  | some _ =>
    let msg := if transportStopRaises then "Error" else "Stopped"
    ⟨⟨FileServer.stop st.world, none⟩, true, msg⟩
  | none =>
    ⟨⟨FileServer.stop st.world, none⟩, false, "Nothing playing"⟩

/-! ### Concrete instances used by witnesses and counterexamples -/

/-- A probe environment in which both socket calls succeed. -/
def envOk : ProbeEnv := ⟨.ok (), .ok "192.168.1.7"⟩

/-- The world after two consecutive `serve` calls from process start. -/
def twoServes : World :=
  (FileServer.serve envOk (FileServer.serve envOk initWorld "a").1 "b").1

/-- A file system holding exactly the file `/path/My Song.mp3`. -/
def fsSong : FileSys :=
  fun s => if s = "/path/My Song.mp3" then some [1, 2, 3] else none

/-- A file system holding files `a` (bytes `[1]`) and `b` (bytes `[2]`). -/
def fsTwo : FileSys :=
  fun s => if s = "a" then some [1] else if s = "b" then some [2] else none

/-- Speaker whose group has an empty member list and whose coordinator
(`uidX`) is not among the discovered devices. -/
def spDegenerate : Speaker := ⟨⟨"uidA", "A"⟩, ⟨⟨"uidX", "X"⟩, []⟩⟩

/-- Devices of the spec's worked example: `A` and `B` share coordinator
`A`; `C` is its own coordinator. -/
def devA : Device := ⟨"uidA", "A"⟩

/-- Second member of the `A`-led group. -/
def devB : Device := ⟨"uidB", "B"⟩

/-- The standalone device `C`. -/
def devC : Device := ⟨"uidC", "C"⟩

/-- Speaker `A` of the worked example (member order in the reported
group deliberately unsorted). -/
def spkA : Speaker := ⟨devA, ⟨devA, [devB, devA]⟩⟩

/-- Speaker `B` of the worked example. -/
def spkB : Speaker := ⟨devB, ⟨devA, [devB, devA]⟩⟩

/-- Speaker `C` of the worked example. -/
def spkC : Speaker := ⟨devC, ⟨devC, [devC]⟩⟩

/-! ### Helper lemmas -/

theorem httpd_stop (w : World) : (FileServer.stop w).httpd = none := by
  cases h : w.httpd <;> simp [FileServer.stop, h]

theorem handlerFilePath_stop (w : World) :
    (FileServer.stop w).handlerFilePath = w.handlerFilePath := by
  cases h : w.httpd <;> simp [FileServer.stop, h]

theorem length_stopLoopAt (l : List Session) (i : Nat) :
    (stopLoopAt l i).length = l.length := by
  induction l generalizing i with
  | nil => rfl
  | cons s rest ih =>
    cases i with
    | zero => rfl
    | succ n => simp [stopLoopAt, ih]

theorem getD_stopLoopAt_ne (l : List Session) (i j : Nat) (d : Session)
    (h : j ≠ i) : (stopLoopAt l i).getD j d = l.getD j d := by
  induction l generalizing i j with
  | nil => rfl
  | cons s rest ih =>
    cases i with
    | zero =>
      cases j with
      | zero => exact absurd rfl h
      | succ m => simp [stopLoopAt]
    | succ n =>
      cases j with
      | zero => simp [stopLoopAt]
      | succ m =>
        simp only [stopLoopAt, List.getD_cons_succ]
        exact ih n m (fun hc => h (by rw [hc]))

theorem loopRunning_stopLoopAt_self (l : List Session) (i : Nat) (d : Session)
    (h : i < l.length) :
    ((stopLoopAt l i).getD i d).loopRunning = false := by
  induction l generalizing i with
  | nil => simp at h
  | cons s rest ih =>
    cases i with
    | zero => simp [stopLoopAt]
    | succ n =>
      simp only [stopLoopAt, List.getD_cons_succ]
      exact ih n (by simpa using h)

theorem socketClosed_map_stopLoopAt (l : List Session) (i : Nat) :
    (stopLoopAt l i).map (fun s => s.socketClosed)
      = l.map (fun s => s.socketClosed) := by
  induction l generalizing i with
  | nil => rfl
  | cons s rest ih =>
    cases i with
    | zero => simp [stopLoopAt]
    | succ n => simp [stopLoopAt, ih]

theorem socketClosed_map_stop (w : World) :
    (FileServer.stop w).sessions.map (fun s => s.socketClosed)
      = w.sessions.map (fun s => s.socketClosed) := by
  cases h : w.httpd <;> simp [FileServer.stop, h, socketClosed_map_stopLoopAt]

/-- After `stop`, no session's accept loop is running (given the
at-most-one-live invariant beforehand). -/
theorem stop_kills (w : World) (hw : LiveOk w) (i : Nat)
    (h : i < (FileServer.stop w).sessions.length) :
    (((FileServer.stop w).sessions.getD i ⟨0, false, false⟩).loopRunning) = false := by
  cases hh : w.httpd with
  | none =>
    simp only [FileServer.stop, hh] at h ⊢
    by_contra hb
    have := hw i h (by simpa using hb)
    rw [hh] at this
    exact Option.noConfusion this
  | some k =>
    simp only [FileServer.stop, hh, length_stopLoopAt] at h ⊢
    by_cases hik : i = k
    · subst hik
      exact loopRunning_stopLoopAt_self w.sessions i ⟨0, false, false⟩ h
    · rw [getD_stopLoopAt_ne w.sessions k i ⟨0, false, false⟩ hik]
      by_contra hb
      have h2 := hw i h (by simpa using hb)
      rw [hh] at h2
      injection h2 with h3
      exact hik h3.symm

theorem getD_append_length (l : List Session) (x d : Session) :
    (l ++ [x]).getD l.length d = x := by
  induction l with
  | nil => rfl
  | cons s rest ih => simpa using ih

/-! ### C5, C6, C7, C8, C9, C10 -/

/-- C5: `_stop` with no active target issues no transport command; with
an active target it commands that coordinator to halt; and in every case
— including when the transport stop raises — the media server is stopped
(`file_server.stop()` runs, leaving `_httpd = None`) and the active
target is cleared. -/
theorem stop_action_always_teardown (st : AppState) (transportStopRaises : Bool) :
    (app_stop st transportStopRaises).state.world = FileServer.stop st.world
    ∧ (app_stop st transportStopRaises).state.world.httpd = none
    ∧ (app_stop st transportStopRaises).state.active_speaker = none
    ∧ ((app_stop st transportStopRaises).transportStopIssued = true
        ↔ st.active_speaker.isSome = true) := by
  cases h : st.active_speaker <;>
    simp [app_stop, h, httpd_stop]

theorem sumVolumes_map_ok (ns : List Nat) :
    sumVolumes (ns.map Except.ok) = Except.ok ns.sum := by
  induction ns with
  | nil => rfl
  | cons n rest ih => simp [sumVolumes, ih]

theorem sumVolumes_error (rs : List (Except OSError Nat))
    (h : ∃ r ∈ rs, r.isOk = false) : ∃ e, sumVolumes rs = Except.error e := by
  induction rs with
  | nil => simp at h
  | cons r rest ih =>
    cases r with
    | error e => exact ⟨e, rfl⟩
    | ok n =>
      obtain ⟨r2, hr2, hok⟩ := h
      rcases List.mem_cons.mp hr2 with h1 | h1
      · rw [h1] at hok
        simp [Except.isOk, Except.toBool] at hok
      · obtain ⟨e, he⟩ := ih ⟨r2, h1, hok⟩
        exact ⟨e, by simp [sumVolumes, he]⟩

/-- C6: for every non-empty member list whose volume reads all succeed,
`fetch_vol` computes the integer-truncated mean `sum // len`; when any
member's read fails, the whole read yields no average at all. -/
theorem average_volume_truncated_mean (ns : List Nat)
    (rs : List (Except OSError Nat)) :
    (ns ≠ [] → fetch_vol (ns.map Except.ok) = some (ns.sum / ns.length))
    ∧ ((∃ r ∈ rs, r.isOk = false) → fetch_vol rs = none) := by
  constructor
  · intro h
    have hlen : ns.length ≠ 0 := fun hc => h (List.length_eq_zero.mp hc)
    simp [fetch_vol, sumVolumes_map_ok, hlen]
  · intro h
    obtain ⟨e, he⟩ := sumVolumes_error rs h
    simp [fetch_vol, he]

/-- Witness for C6: volumes 30, 45, 50 average to 41; a failing second
read yields no average. -/
theorem average_volume_truncated_mean_witness :
    fetch_vol ([30, 45, 50].map Except.ok) = some 41
    ∧ fetch_vol [Except.ok 30, Except.error ⟨1⟩, Except.ok 50] = none := by
  constructor
  · exact ((average_volume_truncated_mean [30, 45, 50] []).1 (by decide)).trans
      (by decide)
  · exact (average_volume_truncated_mean []
      [Except.ok 30, Except.error ⟨1⟩, Except.ok 50]).2 (by decide)

/-- C7: the volume fan-out applies the level to every member whose own
assignment succeeds, regardless of other members' failures, and
per-member failures are swallowed (the failed member simply receives
nothing; no error is surfaced). -/
theorem set_volume_best_effort (fails : List Bool) (vol : Nat) :
    (set_vol fails vol).length = fails.length
    ∧ (∀ i, (h : i < fails.length) → fails.get ⟨i, h⟩ = false →
        (set_vol fails vol).getD i none = some vol)
    ∧ (∀ i, (h : i < fails.length) → fails.get ⟨i, h⟩ = true →
        (set_vol fails vol).getD i none = none) := by
  induction fails with
  | nil =>
    refine ⟨rfl, ?_, ?_⟩ <;> intro i h <;> simp at h
  | cons f rest ih =>
    refine ⟨by simp [set_vol, ih.1], ?_, ?_⟩
    · intro i h hf
      cases i with
      | zero => simp_all [set_vol]
      | succ n =>
        simp only [set_vol, List.getD_cons_succ]
        exact ih.2.1 n (by simpa using h) (by simpa using hf)
    · intro i h hf
      cases i with
      | zero => simp_all [set_vol]
      | succ n =>
        simp only [set_vol, List.getD_cons_succ]
        exact ih.2.2 n (by simpa using h) (by simpa using hf)

/-- Witness for C7: over three members where the second fails, the first
and third still receive the level. -/
theorem set_volume_best_effort_witness :
    (set_vol [false, true, false] 7).getD 0 none = some 7
    ∧ (set_vol [false, true, false] 7).getD 2 none = some 7
    ∧ (set_vol [false, true, false] 7).getD 1 none = none := by
  refine ⟨?_, ?_, ?_⟩
  · exact (set_volume_best_effort [false, true, false] 7).2.1 0
      (by decide) (by decide)
  · exact (set_volume_best_effort [false, true, false] 7).2.1 2
      (by decide) (by decide)
  · exact (set_volume_best_effort [false, true, false] 7).2.2 1
      (by decide) (by decide)

/-- C8: `stop()` on a server that is not running — in particular before
any `serve` call — changes nothing and raises nothing. -/
theorem stop_not_running_noop (w : World) (h : w.httpd = none) :
    FileServer.stop w = w := by
  simp [FileServer.stop, h]

/-- Witness for C8 at the start-of-process state. -/
theorem stop_not_running_noop_witness :
    initWorld.httpd = none ∧ FileServer.stop initWorld = initWorld :=
  ⟨rfl, stop_not_running_noop initWorld rfl⟩

/-- C9: `_get_local_ip` closes the probe socket on every path, never
propagates an error, returns `127.0.0.1` when connecting or reading the
local endpoint fails, and returns the local endpoint on success. -/
theorem local_ip_never_fails (env : ProbeEnv) :
    (get_local_ip env).2 = true
    ∧ (∀ e, (get_local_ip env).1 ≠ Except.error e)
    ∧ ((env.connectResult.isOk = false ∨ env.getsocknameResult.isOk = false) →
        (get_local_ip env).1 = Except.ok "127.0.0.1")
    ∧ (∀ ip, env.connectResult = Except.ok () → env.getsocknameResult = Except.ok ip →
        (get_local_ip env).1 = Except.ok ip) := by
  obtain ⟨c, g⟩ := env
  refine ⟨rfl, ?_, ?_, ?_⟩
  · intro e
    cases c <;> cases g <;> simp [get_local_ip]
  · intro h
    cases c with
    | error ec => cases g <;> simp [get_local_ip]
    | ok u =>
      cases g with
      | error eg => simp [get_local_ip]
      | ok ip => simp [Except.isOk, Except.toBool] at h
  · intro ip hc hg
    cases hc
    cases hg
    simp [get_local_ip]

/-- Witness for C9: a failed connect yields the loopback address; a
successful probe yields the local endpoint. -/
theorem local_ip_never_fails_witness :
    (get_local_ip ⟨Except.error ⟨111⟩, Except.ok "10.0.0.5"⟩).1 = Except.ok "127.0.0.1"
    ∧ (get_local_ip ⟨Except.ok (), Except.ok "10.0.0.5"⟩).1 = Except.ok "10.0.0.5" := by
  constructor
  · exact (local_ip_never_fails ⟨Except.error ⟨111⟩, Except.ok "10.0.0.5"⟩).2.2.1
      (Or.inl rfl)
  · exact (local_ip_never_fails ⟨Except.ok (), Except.ok "10.0.0.5"⟩).2.2.2
      "10.0.0.5" rfl rfl

/-- C10: the bound file is the process-wide handler class attribute:
after `serve f1; serve f2` the attribute holds `f2`, a request handled
through any session — the session index plays no part — streams `f2`'s
bytes, and not the bytes of `f1`, the file the earlier session was
started with. -/
theorem handler_file_is_class_state (env : ProbeEnv) (fs : FileSys) (w : World)
    (f1 f2 p : String) (i j : Nat) (b1 b2 : List Nat) :
    ((FileServer.serve env (FileServer.serve env w f1).1 f2).1.handlerFilePath = f2)
    ∧ (handleRequestOn fs (FileServer.serve env (FileServer.serve env w f1).1 f2).1 i p
        = handleRequestOn fs (FileServer.serve env (FileServer.serve env w f1).1 f2).1 j p)
    ∧ (fs f2 = some b2 →
        handleRequestOn fs (FileServer.serve env (FileServer.serve env w f1).1 f2).1 i p
          = ⟨200, b2⟩)
    ∧ (fs f2 = some b2 → b1 ≠ b2 →
        handleRequestOn fs (FileServer.serve env (FileServer.serve env w f1).1 f2).1 i p
          ≠ ⟨200, b1⟩) := by
  refine ⟨rfl, rfl, ?_, ?_⟩
  · intro h2
    simp [handleRequestOn, do_GET, translate_path, FileServer.serve, h2]
  · intro h2 hne hc
    have : (⟨200, b2⟩ : HttpResponse) = ⟨200, b1⟩ := by
      rw [← hc]
      simp [handleRequestOn, do_GET, translate_path, FileServer.serve, h2]
    exact hne (by injection this with _ h; exact h.symm)

/-- Witness for C10: after serving `a` then `b`, a request through the
first session (index 0) streams `b`'s bytes, not `a`'s. -/
theorem handler_file_is_class_state_witness :
    handleRequestOn fsTwo twoServes 0 "/x" = ⟨200, [2]⟩
    ∧ handleRequestOn fsTwo twoServes 0 "/x" ≠ ⟨200, [1]⟩ := by
  constructor
  · exact (handler_file_is_class_state envOk fsTwo initWorld "a" "b" "/x" 0 1
      [1] [2]).2.2.1 (by decide)
  · exact (handler_file_is_class_state envOk fsTwo initWorld "a" "b" "/x" 0 1
      [1] [2]).2.2.2 (by decide) (by decide)

/-! ### C1 -/

/-- C1 counterexample: starting from process start, after two
consecutive `serve` calls the listening socket of the first session is
still unclosed (the source never calls `server_close()`), so two bound,
unclosed listening sockets exist simultaneously and the second bind did
not wait for the first socket to be closed. -/
theorem serve_twice_sockets_counterexample :
    twoServes.sessions.map (fun s => s.socketClosed) = [false, false]
    ∧ ¬ ((twoServes.sessions.filter (fun s => !s.socketClosed)).length ≤ 1) := by
  exact ⟨by decide, by decide⟩

/-- C1 (amended): `serve` unconditionally runs `stop()` before binding
— `stop()` synchronously halts the previous session's accept loop — so
the at-most-one-live-accept-loop invariant is preserved and exactly one
accept loop runs after `serve`; but no listening socket is ever closed:
`serve` leaves every earlier socket's closed-flag untouched and adds an
unclosed one. -/
theorem serve_single_live_loop (env : ProbeEnv) (w : World) (f : String) :
    ((FileServer.serve env w f).1.sessions
      = (FileServer.stop w).sessions
          ++ [⟨(FileServer.stop w).sessions.length, true, false⟩])
    ∧ (LiveOk w → LiveOk (FileServer.serve env w f).1)
    ∧ (LiveOk w → liveCount (FileServer.serve env w f).1 = 1)
    ∧ ((FileServer.serve env w f).1.sessions.map (fun s => s.socketClosed)
        = w.sessions.map (fun s => s.socketClosed) ++ [false]) := by
  refine ⟨rfl, ?_, ?_, ?_⟩
  · intro hw i hi hrun
    have hlen : (FileServer.serve env w f).1.sessions.length
        = (FileServer.stop w).sessions.length + 1 := by
      simp [FileServer.serve]
    rw [hlen] at hi
    rcases Nat.lt_or_ge i (FileServer.stop w).sessions.length with hlt | hge
    · exfalso
      have heq : (FileServer.serve env w f).1.sessions.getD i ⟨0, false, false⟩
          = (FileServer.stop w).sessions.getD i ⟨0, false, false⟩ :=
        List.getD_append _ _ _ _ hlt
      rw [heq] at hrun
      rw [stop_kills w hw i hlt] at hrun
      exact Bool.noConfusion hrun
    · have hieq : i = (FileServer.stop w).sessions.length := by omega
      subst hieq
      rfl
  · intro hw
    have hnil : (FileServer.stop w).sessions.filter (fun s => s.loopRunning) = [] := by
      rw [List.filter_eq_nil_iff]
      intro s hs
      obtain ⟨n, hn⟩ := List.mem_iff_get.mp hs
      have h3 : (FileServer.stop w).sessions.getD n ⟨0, false, false⟩ = s := by
        rw [List.getD_eq_getElem _ _ n.isLt]
        simpa [List.get_eq_getElem] using hn
      have h4 := stop_kills w hw n n.isLt
      rw [h3] at h4
      simp [h4]
    show (List.filter (fun s => s.loopRunning)
        ((FileServer.stop w).sessions
          ++ [⟨(FileServer.stop w).sessions.length, true, false⟩])).length = 1
    rw [List.filter_append, hnil]
    rfl
  · show List.map (fun s => s.socketClosed)
        ((FileServer.stop w).sessions
          ++ [⟨(FileServer.stop w).sessions.length, true, false⟩])
      = List.map (fun s => s.socketClosed) w.sessions ++ [false]
    rw [List.map_append, socketClosed_map_stop]
    rfl

/-- Witness for C1 (amended), instantiated at the second of two
consecutive serves from process start. -/
theorem serve_single_live_loop_witness :
    LiveOk twoServes ∧ liveCount twoServes = 1 := by
  constructor
  · exact (serve_single_live_loop envOk (FileServer.serve envOk initWorld "a").1
      "b").2.1 (by decide)
  · exact (serve_single_live_loop envOk (FileServer.serve envOk initWorld "a").1
      "b").2.2.1 (by decide)

/-! ### C2 -/

/-- C2 counterexample: with `/path/My Song.mp3` bound, a GET on
`/other` — not the encoded basename path — is answered 200 with the
file's bytes, not 404: `translate_path` maps every request path to the
bound file. -/
theorem get_other_path_counterexample :
    do_GET fsSong "/path/My Song.mp3" "/other" = ⟨200, [1, 2, 3]⟩
    ∧ do_GET fsSong "/path/My Song.mp3" "/other" ≠ ⟨404, []⟩
    ∧ do_GET_specified fsSong "/path/My Song.mp3" "/other" = ⟨404, []⟩
    ∧ "/other" ≠ "/" ++ quote (basename "/path/My Song.mp3") := by
  refine ⟨by decide, by decide, by decide, by decide⟩

/-- C2 (amended): the URL has the form
`http://resolvedIP:port/urlEncodedBasename` with the space in the
basename percent-encoded, and a GET on that encoded path returns 200
with the file's bytes; but a GET on any other path returns the same 200
with the file's bytes — no request path yields 404 while the bound file
is readable (404 arises only when opening the bound file fails). -/
theorem serve_url_and_get (env : ProbeEnv) (w : World) (f p : String)
    (bytes : List Nat) (fs : FileSys) :
    ((FileServer.serve env w f).2
      = "http://" ++ ipOf env ++ ":"
          ++ toString (FileServer.stop w).sessions.length ++ "/"
          ++ quote (basename f))
    ∧ quote (basename "/path/My Song.mp3") = "My%20Song.mp3"
    ∧ (fs f = some bytes →
        do_GET fs f ("/" ++ quote (basename f)) = ⟨200, bytes⟩)
    ∧ (fs f = some bytes → do_GET fs f p = ⟨200, bytes⟩)
    ∧ (fs f = none → do_GET fs f p = ⟨404, []⟩) := by
  refine ⟨rfl, by decide, ?_, ?_, ?_⟩ <;>
    intro h <;> simp [do_GET, translate_path, h]

/-- Witness for C2 (amended): the served song URL and both GET shapes at
concrete inputs. -/
theorem serve_url_and_get_witness :
    (FileServer.serve envOk initWorld "/path/My Song.mp3").2
      = "http://192.168.1.7:0/My%20Song.mp3"
    ∧ do_GET fsSong "/path/My Song.mp3" "/My%20Song.mp3" = ⟨200, [1, 2, 3]⟩
    ∧ do_GET fsSong "/path/My Song.mp3" "/anything" = ⟨200, [1, 2, 3]⟩ := by
  refine ⟨?_, ?_, ?_⟩
  · exact ((serve_url_and_get envOk initWorld "/path/My Song.mp3" "/anything"
      [1, 2, 3] fsSong).1).trans (by decide)
  · have h := (serve_url_and_get envOk initWorld "/path/My Song.mp3" "/anything"
      [1, 2, 3] fsSong).2.2.1 (by decide)
    exact (by decide : ("/My%20Song.mp3" : String)
      = "/" ++ quote (basename "/path/My Song.mp3")) ▸ h
  · exact (serve_url_and_get envOk initWorld "/path/My Song.mp3" "/anything"
      [1, 2, 3] fsSong).2.2.2.1 (by decide)

/-! ### C3 -/

/-- C3 counterexample: a snapshot whose single device reports a group
with an empty member list (and a coordinator `uidX` that is not among
the discovered devices) is emitted as a degenerate group with empty
members and empty label, not dropped. -/
theorem degenerate_group_emitted_counterexample :
    resolveGroups [spDegenerate] = [⟨"", ⟨"uidX", "X"⟩, []⟩]
    ∧ ¬ (∀ g ∈ resolveGroups [spDegenerate], g.members ≠ []) := by
  exact ⟨by decide, by decide⟩

theorem coord_mem_collect (l : List Speaker) :
    ∀ (seen : List String) (sp : Speaker), sp ∈ l →
      sp.group.coordinator.uid ∈ seen
      ∨ sp.group.coordinator.uid ∈ coordUids (collectGroups l seen) := by
  induction l with
  | nil => intro seen sp h; simp at h
  | cons s rest ih =>
    intro seen sp hmem
    rcases List.mem_cons.mp hmem with h | h
    · subst h
      by_cases hs : sp.group.coordinator.uid ∈ seen
      · exact Or.inl hs
      · right
        simp [collectGroups, hs, mkEntry, coordUids]
    · by_cases hs : s.group.coordinator.uid ∈ seen
      · have h2 := ih seen sp h
        simpa [collectGroups, hs] using h2
      · rcases ih (s.group.coordinator.uid :: seen) sp h with h2 | h2
        · rcases List.mem_cons.mp h2 with h3 | h3
          · right
            simp only [collectGroups, hs, if_false, ite_false, coordUids,
              List.map_cons, List.mem_cons]
            exact Or.inl (by rw [h3]; simp [mkEntry])
          · exact Or.inl h3
        · right
          simp only [collectGroups, hs, if_false, ite_false, coordUids,
            List.map_cons, List.mem_cons]
          exact Or.inr (by simpa [coordUids] using h2)

theorem coord_mem_resolveGroups (found : List Speaker) (sp : Speaker)
    (h : sp ∈ found) :
    sp.group.coordinator.uid ∈ coordUids (resolveGroups found) := by
  rcases coord_mem_collect found [] sp h with h2 | h2
  · simp at h2
  · have hperm : List.Perm (coordUids (resolveGroups found))
        (coordUids (collectGroups found [])) :=
      (List.perm_insertionSort entryLe _).map _
    exact hperm.mem_iff.mpr h2

/-- C3 (amended): the resolver performs no degenerate-group filtering:
every discovered device's coordinator is represented by an emitted
group — in particular a coordinator with an empty member list is
emitted as a group with empty members and empty label, and a
coordinator that is not among the enumerated devices is still emitted
rather than dropped. -/
theorem no_degenerate_filtering (found : List Speaker) :
    (∀ sp ∈ found,
      sp.group.coordinator.uid ∈ coordUids (resolveGroups found))
    ∧ resolveGroups [spDegenerate] = [⟨"", ⟨"uidX", "X"⟩, []⟩] :=
  ⟨fun sp h => coord_mem_resolveGroups found sp h, by decide⟩

/-- Witness for C3 (amended): the degenerate snapshot's coordinator is
emitted. -/
theorem no_degenerate_filtering_witness :
    spDegenerate.group.coordinator.uid
      ∈ coordUids (resolveGroups [spDegenerate]) :=
  (no_degenerate_filtering [spDegenerate]).1 spDegenerate (by decide)

/-! ### C4 -/

theorem mkEntry_congr (a b : Speaker) (h : a.group = b.group) :
    mkEntry a = mkEntry b := by
  simp [mkEntry, h]

theorem collect_uids_nodup (l : List Speaker) : ∀ seen : List String,
    (coordUids (collectGroups l seen)).Nodup
    ∧ ∀ u ∈ coordUids (collectGroups l seen), u ∉ seen := by
  induction l with
  | nil =>
    intro seen
    exact ⟨List.nodup_nil, by simp [collectGroups, coordUids]⟩
  | cons s rest ih =>
    intro seen
    by_cases hs : s.group.coordinator.uid ∈ seen
    · simpa [collectGroups, hs] using ih seen
    · have ihs := ih (s.group.coordinator.uid :: seen)
      constructor
      · simp only [collectGroups, hs, ite_false, coordUids, List.map_cons,
          List.nodup_cons]
        constructor
        · intro hmem
          have h2 := ihs.2 (mkEntry s).coordinator.uid
            (by simpa [coordUids] using hmem)
          exact h2 (by simp [mkEntry])
        · simpa [coordUids] using ihs.1
      · intro u hu
        simp only [collectGroups, hs, ite_false, coordUids, List.map_cons,
          List.mem_cons] at hu
        rcases hu with h1 | h1
        · rw [h1]
          simpa [mkEntry] using hs
        · have h2 := ihs.2 u (by simpa [coordUids] using h1)
          intro hc
          exact h2 (List.mem_cons_of_mem _ hc)

theorem collect_entries_nodup (l : List Speaker) (seen : List String) :
    (collectGroups l seen).Nodup :=
  ((collect_uids_nodup l seen).1).of_map

theorem mem_collect_elim {l : List Speaker} {seen : List String}
    {e : GroupEntry} (h : e ∈ collectGroups l seen) :
    ∃ sp ∈ l, sp.group.coordinator.uid ∉ seen ∧ e = mkEntry sp := by
  induction l generalizing seen with
  | nil => simp [collectGroups] at h
  | cons s rest ih =>
    by_cases hs : s.group.coordinator.uid ∈ seen
    · obtain ⟨sp, hsp, hns, he⟩ := ih (by simpa [collectGroups, hs] using h)
      exact ⟨sp, List.mem_cons_of_mem _ hsp, hns, he⟩
    · simp only [collectGroups, hs, ite_false, List.mem_cons] at h
      rcases h with h | h
      · exact ⟨s, List.mem_cons_self _ _, hs, h⟩
      · obtain ⟨sp, hsp, hns, he⟩ := ih h
        refine ⟨sp, List.mem_cons_of_mem _ hsp, ?_, he⟩
        intro hc
        exact hns (List.mem_cons_of_mem _ hc)

theorem mem_collect_intro {l : List Speaker} (hcon : Consistent l)
    {seen : List String} {sp : Speaker} (hsp : sp ∈ l)
    (hns : sp.group.coordinator.uid ∉ seen) :
    mkEntry sp ∈ collectGroups l seen := by
  induction l generalizing seen with
  | nil => simp at hsp
  | cons s rest ih =>
    have hconr : Consistent rest := fun a ha b hb =>
      hcon a (List.mem_cons_of_mem _ ha) b (List.mem_cons_of_mem _ hb)
    rcases List.mem_cons.mp hsp with h | h
    · subst h
      simp only [collectGroups, hns, ite_false]
      exact List.mem_cons_self _ _
    · by_cases hs : s.group.coordinator.uid ∈ seen
      · simp only [collectGroups, hs, ite_true]
        exact ih hconr h hns
      · simp only [collectGroups, hs, ite_false]
        by_cases heq : sp.group.coordinator.uid = s.group.coordinator.uid
        · have hg : sp.group = s.group :=
            hcon sp hsp s (List.mem_cons_self _ _) heq
          rw [mkEntry_congr sp s hg]
          exact List.mem_cons_self _ _
        · have hns2 : sp.group.coordinator.uid
              ∉ s.group.coordinator.uid :: seen := by
            intro hc
            rcases List.mem_cons.mp hc with hc1 | hc1
            · exact heq hc1
            · exact hns hc1
          exact List.mem_cons_of_mem _ (ih hconr h hns2)

theorem mem_collect_iff {l : List Speaker} (hcon : Consistent l)
    {e : GroupEntry} :
    e ∈ collectGroups l [] ↔ ∃ sp ∈ l, e = mkEntry sp := by
  constructor
  · intro h
    obtain ⟨sp, hsp, _, he⟩ := mem_collect_elim h
    exact ⟨sp, hsp, he⟩
  · rintro ⟨sp, hsp, rfl⟩
    exact mem_collect_intro hcon hsp (by simp)

theorem collect_perm {l l2 : List Speaker} (hp : List.Perm l2 l)
    (hcon : Consistent l) :
    List.Perm (collectGroups l2 []) (collectGroups l []) := by
  have hcon2 : Consistent l2 := fun a ha b hb =>
    hcon a (hp.mem_iff.mp ha) b (hp.mem_iff.mp hb)
  refine (List.perm_ext_iff_of_nodup (collect_entries_nodup l2 [])
    (collect_entries_nodup l [])).mpr ?_
  intro e
  rw [mem_collect_iff hcon2, mem_collect_iff hcon]
  constructor <;> rintro ⟨sp, hsp, rfl⟩
  · exact ⟨sp, hp.mem_iff.mp hsp, rfl⟩
  · exact ⟨sp, hp.mem_iff.mpr hsp, rfl⟩

theorem resolve_perm_eq {found found2 : List Speaker}
    (hp : List.Perm found2 found) (hcon : Consistent found)
    (hnl : ((resolveGroups found).map (fun g => g.label)).Nodup) :
    resolveGroups found2 = resolveGroups found := by
  have hcperm := collect_perm hp hcon
  have hperm : List.Perm (resolveGroups found2) (resolveGroups found) :=
    ((List.perm_insertionSort entryLe _).trans hcperm).trans
      (List.perm_insertionSort entryLe _).symm
  have hs1 : List.Pairwise entryLe (resolveGroups found2) :=
    List.sorted_insertionSort entryLe _
  have hs2 : List.Pairwise entryLe (resolveGroups found) :=
    List.sorted_insertionSort entryLe _
  have hnl2 : ((resolveGroups found2).map (fun g => g.label)).Nodup :=
    (hperm.map (fun g => g.label)).nodup_iff.mpr hnl
  have hne1 : List.Pairwise (fun a b : GroupEntry => a.label ≠ b.label)
      (resolveGroups found2) := List.pairwise_map.mp hnl2
  have hne2 : List.Pairwise (fun a b : GroupEntry => a.label ≠ b.label)
      (resolveGroups found) := List.pairwise_map.mp hnl
  haveI : IsAntisymm GroupEntry (fun a b => entryLe a b ∧ a.label ≠ b.label) :=
    ⟨fun a b h1 h2 => absurd (strLe_antisymm h1.1 h2.1) h1.2⟩
  exact List.eq_of_perm_of_sorted hperm (hs1.and hne1) (hs2.and hne2)

/-- C4: group resolution emits exactly one group per distinct
coordinator uid (dedup by coordinator id, no other uid appears), sorts
each group's members by display name ascending, computes the label as
the member names joined by the separator in that order, returns the
groups sorted by label ascending, and — for a consistent snapshot with
distinct labels — is deterministic: any enumeration order of the same
device set yields the same group list. -/
theorem resolve_groups_spec (found : List Speaker) :
    (coordUids (resolveGroups found)).Nodup
    ∧ (∀ sp ∈ found,
        sp.group.coordinator.uid ∈ coordUids (resolveGroups found))
    ∧ (∀ u ∈ coordUids (resolveGroups found),
        u ∈ found.map (fun sp => sp.group.coordinator.uid))
    ∧ (∀ g ∈ resolveGroups found, List.Pairwise memberLe g.members)
    ∧ (∀ g ∈ resolveGroups found, g.label = mkLabel g.members)
    ∧ List.Pairwise entryLe (resolveGroups found)
    ∧ (∀ found2, List.Perm found2 found → Consistent found →
        ((resolveGroups found).map (fun g => g.label)).Nodup →
        resolveGroups found2 = resolveGroups found) := by
  have hmemperm : List.Perm (resolveGroups found) (collectGroups found []) :=
    List.perm_insertionSort entryLe _
  refine ⟨?_, ?_, ?_, ?_, ?_, ?_, ?_⟩
  · have h1 : (List.map (fun g => g.coordinator.uid)
        (collectGroups found [])).Nodup := (collect_uids_nodup found []).1
    show (List.map (fun g => g.coordinator.uid) (resolveGroups found)).Nodup
    exact (hmemperm.map (fun g => g.coordinator.uid)).nodup_iff.mpr h1
  · exact fun sp h => coord_mem_resolveGroups found sp h
  · intro u hu
    simp only [coordUids, List.mem_map] at hu
    obtain ⟨g, hg, rfl⟩ := hu
    obtain ⟨sp, hsp, _, rfl⟩ := mem_collect_elim (hmemperm.mem_iff.mp hg)
    exact List.mem_map.mpr ⟨sp, hsp, by simp [mkEntry]⟩
  · intro g hg
    obtain ⟨sp, _, _, rfl⟩ := mem_collect_elim (hmemperm.mem_iff.mp hg)
    show List.Pairwise memberLe (sortMembers sp.group.members)
    exact List.sorted_insertionSort memberLe _
  · intro g hg
    obtain ⟨sp, _, _, rfl⟩ := mem_collect_elim (hmemperm.mem_iff.mp hg)
    rfl
  · exact List.sorted_insertionSort entryLe _
  · exact fun found2 hp hcon hnl => resolve_perm_eq hp hcon hnl

/-- Witness for C4: the spec's worked example, in two enumeration
orders: groups `A + B` (members sorted `[A, B]`) and `C`, and the same
result from a permuted snapshot. -/
theorem resolve_groups_spec_witness :
    resolveGroups [spkB, spkC, spkA]
      = [⟨"A + B", devA, [devA, devB]⟩, ⟨"C", devC, [devC]⟩]
    ∧ resolveGroups [spkC, spkA, spkB] = resolveGroups [spkB, spkC, spkA] := by
  constructor
  · decide
  · exact (resolve_groups_spec [spkB, spkC, spkA]).2.2.2.2.2.2
      [spkC, spkA, spkB] (by decide) (by decide) (by decide)

end SonosPlay
